import Mathlib

/-!
Shallow embedding of the document-lifecycle core of `src/app.py`
(class `DocumentQueryApp`): the document registry, the index as a list of
`(text, metadata)` documents, the upload batch of
`render_document_management`, `remove_document`, `remove_all_documents`,
the query-history cap of `render_question_section`, and the durable
registry load/save of `_load_document_registry` / `_save_document_registry`.

External capabilities (the md5 fingerprint `_generate_file_hash`, PDF text
extraction via PyPDF2, utf-8 decoding of raw bytes, the llama-index query
engine, and the wall clock) are opaque in the source; they are passed in as
the fields of `Params`.
-/

namespace DocApp

/-- Raw bytes of an uploaded file (`uploaded_file.getvalue()`). -/
abbrev Bytes := List Nat

/-- One value of the registry dict `st.session_state.documents_registry`:
`{"type": ..., "size": ..., "date_added": ..., "hash": ...}` (app.py 317-322). -/
structure DocInfo where
  type : String
  size : Nat
  date_added : String
  hash : String
deriving DecidableEq, Repr

/-- The document registry: the Python dict `filename -> DocInfo`, modelled as
an insertion-ordered association list with unique keys. -/
abbrev Registry := List (String × DocInfo)

/-- One indexed document: `Document(text=text, metadata={"filename": name})`
(app.py 313). -/
structure Doc where
  text : String
  filename : String
deriving DecidableEq, Repr

/-- The vector index, seen through the contract the app uses: the list of its
documents `index.docstore.docs.values()` as `(text, metadata)` pairs. -/
abbrev Index := List Doc

/-- Combined in-memory state: registry plus index. -/
structure AppState where
  registry : Registry
  index : Index
deriving DecidableEq, Repr

/-- One file handed to the upload widget: name, declared MIME type, bytes. -/
structure UploadedFile where
  name : String
  type : String
  content : Bytes
deriving DecidableEq, Repr

/-- The opaque external capabilities the app calls:
`fhash` models `_generate_file_hash` (md5 hexdigest of the bytes),
`extractPdf` models `_extract_pdf_text` (`none` = extraction error, PyPDF2),
`decodeUtf8` models `file_content.decode("utf-8")` (`none` = raised),
`queryEngine` models `index.as_query_engine().query(prompt).response`,
`now` models `datetime.now().strftime(...)`. -/
structure Params where
  fhash : Bytes → String
  extractPdf : Bytes → Option String
  decodeUtf8 : Bytes → Option String
  queryEngine : String → String
  now : String

/-- `k in dict` for the registry dict. -/
def dictContains (r : Registry) (k : String) : Bool :=
  r.any (fun p => p.1 = k)

/-- `dict[k] = v`: overwrites in place when the key exists, else appends
(Python dict assignment keeps insertion order). -/
def dictInsert (r : Registry) (k : String) (v : DocInfo) : Registry :=
  if dictContains r k then r.map (fun p => if p.1 = k then (k, v) else p)
  else r ++ [(k, v)]

/-- `del dict[k]`. -/
def dictRemove (r : Registry) (k : String) : Registry :=
  r.filter (fun p => p.1 ≠ k)

/-- `dict[k]` as an option. -/
def dictFind (r : Registry) (k : String) : Option DocInfo :=
  (r.find? (fun p => p.1 = k)).map Prod.snd

/-- The duplicate check of the upload loop (app.py 284-287):
`any(doc_info.get('hash') == file_hash for doc_info in registry.values())`. -/
def isDuplicate (r : Registry) (h : String) : Bool :=
  r.any (fun p => p.2.hash = h)

/-- First loop of the upload handler (app.py 278-292): hash every file and
split the batch into `duplicate_files` (names) and `new_files_to_process`
(file with its hash), checking each hash against the registry as it stands
at the start of the batch — the registry is not touched by this loop. -/
def splitBatch (P : Params) (reg : Registry) :
    List UploadedFile → List String × List (UploadedFile × String)
  | [] => ([], [])
  | f :: rest =>
    let h := P.fhash f.content
    let (dups, news) := splitBatch P reg rest
    if isDuplicate reg h then (f.name :: dups, news) else (dups, (f, h) :: news)

/-- Text extraction step of the processing loop (app.py 303-310):
PDF via `_extract_pdf_text` (`None` on error), plain text via utf-8 decode
(an exception is caught by the per-file `except`), any other type is
skipped with a warning. `none` = this file contributes no text. -/
def extractedText (P : Params) (f : UploadedFile) : Option String :=
  if f.type = "application/pdf" then P.extractPdf f.content
  else if f.type = "text/plain" then P.decodeUtf8 f.content
  else none

/-- Processing of one accepted file (app.py 301-322): if extraction yields
truthy (nonempty) text, insert the document into the index and write the
registry entry; otherwise the state is untouched. -/
def processFile (P : Params) (s : AppState) (f : UploadedFile) (h : String) : AppState :=
  match extractedText P f with
  | none => s
  | some t =>
    if t = "" then s
    else
      { index := s.index ++ [{ text := t, filename := f.name }]
        registry := dictInsert s.registry f.name
          { type := f.type, size := f.content.length, date_added := P.now, hash := h } }

/-- Second loop of the upload handler: process `new_files_to_process` in
order. -/
def processFiles (P : Params) (s : AppState) : List (UploadedFile × String) → AppState
  | [] => s
  | fh :: rest => processFiles P (processFile P s fh.1 fh.2) rest

/-- The whole upload branch of `render_document_management` (app.py 272-332):
split the batch against the start-of-batch registry, report the duplicate
filenames, process the accepted files. Returns the new state and the
`duplicate_files` reported to the user. -/
def render_document_management_upload (P : Params) (s : AppState)
    (files : List UploadedFile) : AppState × List String :=
  let (dups, news) := splitBatch P s.registry files
  (processFiles P s news, dups)

/-- What `remove_document` tells the user: the source only ever emits the
success message `st.success(f"Document '{filename}' removed successfully.")`
on its happy path; a not-found outcome exists in the spec's vocabulary but
must be distinguishable to state it. -/
inductive RemoveReport where
  | success (filename : String)
  | notFound (filename : String)
deriving DecidableEq, Repr

/-- `remove_document` (app.py 218-241): delete the registry entry when the
filename is present, then rebuild the index from every document whose
metadata filename differs from the target. The success message is emitted
unconditionally on the happy path. -/
def remove_document (s : AppState) (filename : String) : AppState × RemoveReport :=
  let reg := if dictContains s.registry filename then dictRemove s.registry filename
             else s.registry
  let idx := s.index.filter (fun d => d.filename ≠ filename)
  ({ registry := reg, index := idx }, RemoveReport.success filename)

/-- `remove_all_documents` (app.py 243-258): clear the registry and build an
empty index. -/
def remove_all_documents (_s : AppState) : AppState :=
  { registry := [], index := [] }

/-- One query-history record (app.py 192-196). -/
structure QueryEntry where
  question : String
  response : String
  timestamp : String
deriving DecidableEq, Repr

/-- The history cap (app.py 199-201): after appending, keep only the last 50
entries (`query_history[-50:]`) when the length exceeds 50. -/
def capHistory (h : List QueryEntry) : List QueryEntry :=
  if h.length > 50 then h.drop (h.length - 50) else h

/-- Append a query record and apply the cap (app.py 192-201). -/
def appendQueryEntry (h : List QueryEntry) (e : QueryEntry) : List QueryEntry :=
  capHistory (h ++ [e])

/-- Outcome of one pass through `render_question_section`. -/
structure QuestionOutcome where
  history : List QueryEntry
  engineCalled : Bool
  noDocsWarning : Bool
deriving DecidableEq, Repr

/-- `render_question_section` (app.py 177-216): an empty registry warns and
returns before the query engine is built; otherwise, when a prompt was
entered, the engine is queried and the capped history records the answer. -/
def render_question_section (P : Params) (reg : Registry)
    (history : List QueryEntry) (prompt : Option String) : QuestionOutcome :=
  if reg.isEmpty then { history := history, engineCalled := false, noDocsWarning := true }
  else
    match prompt with
    | none => { history := history, engineCalled := false, noDocsWarning := false }
    | some p =>
      { history := appendQueryEntry history
          { question := p, response := P.queryEngine p, timestamp := P.now }
        engineCalled := true
        noDocsWarning := false }

/-- `_initialize_session_state` (app.py 29-42): the registry starts as the
session's value when the key is present, else `{}`. -/
def initialize_session_registry (existing : Option Registry) : Registry :=
  match existing with
  | some r => r
  | none => []

/-- `_load_document_registry` (app.py 63-71), given the JSON reader `parse`
(`none` models `json.load` raising): when the file is absent the
initialized registry is kept; when parsing fails the error is reported
(`st.error`) and the registry falls back to `{}`. Returns the registry and
whether an error was reported. -/
def load_document_registry (parse : String → Option Registry)
    (initial : Registry) (file : Option String) : Registry × Bool :=
  match file with
  | none => (initial, false)
  | some s =>
    match parse s with
    | some r => (r, false)
    | none => ([], true)

/-- Registry at the end of `__init__` (app.py 13-27): initialize the session
state, then load from the durable file. -/
def startup_registry (parse : String → Option Registry)
    (session : Option Registry) (file : Option String) : Registry × Bool :=
  load_document_registry parse (initialize_session_registry session) file

/-- The durable file contents reachable if the process crashes at any point
during `_save_document_registry` (app.py 73-79). The source does
`open(file, 'w')` — which truncates the file in place — and then
`json.dump` writes the serialized registry incrementally, so a crash before
the open leaves the old content and a crash afterwards leaves whatever
portion of the new text had been written so far. -/
def save_document_registry_crash_contents (oldContent newContent : String) : List String :=
  oldContent :: (List.range (newContent.length + 1)).map (fun k => newContent.take k)

/-- One completed user-level mutation of the registry/index pair. -/
inductive Op where
  | upload (files : List UploadedFile)
  | remove (filename : String)
  | removeAll
deriving Repr

/-- Apply one operation to the state. -/
def applyOp (P : Params) (s : AppState) : Op → AppState
  | Op.upload files => (render_document_management_upload P s files).1
  | Op.remove f => (remove_document s f).1
  | Op.removeAll => remove_all_documents s

/-- Run a sequence of operations. -/
def runOps (P : Params) (s : AppState) : List Op → AppState
  | [] => s
  | op :: rest => runOps P (applyOp P s op) rest

/-- The files an operation uploads. -/
def opFiles : Op → List UploadedFile
  | Op.upload files => files
  | _ => []

/-- All files uploaded across a sequence of operations. -/
def opsFiles (ops : List Op) : List UploadedFile :=
  (ops.map opFiles).flatten

/-- The structural correspondence invariant of spec §3/§8: registry size
equals index document count, every registry filename tags at least one
indexed document, and every tag in the index has a registry entry. -/
def correspondence (s : AppState) : Prop :=
  s.registry.length = s.index.length ∧
  (∀ p ∈ s.registry, ∃ d ∈ s.index, d.filename = p.1) ∧
  (∀ d ∈ s.index, dictContains s.registry d.filename = true)

instance (s : AppState) : Decidable (correspondence s) := by
  unfold correspondence
  infer_instance

/-- A concrete stand-in for the md5 hexdigest, used to evaluate the model on
closed inputs: distinct byte strings get distinct digests. -/
def testHash (bs : Bytes) : String :=
  String.join (bs.map (fun n => toString n ++ ","))

/-- Concrete capabilities for evaluating the model on closed inputs. -/
def testParams : Params where
  fhash := testHash
  extractPdf := fun _ => none
  decodeUtf8 := fun bs => some (String.join (bs.map (fun n => toString n ++ ".")))
  queryEngine := fun p => p
  now := "2025-01-01 00:00:00"

/-- Concrete upload: `a.txt` with byte content `[1]`. -/
def fileA : UploadedFile := { name := "a.txt", type := "text/plain", content := [1] }

/-- Concrete upload: `b.txt` with the same byte content as `fileA`. -/
def fileB : UploadedFile := { name := "b.txt", type := "text/plain", content := [1] }

/-- Concrete upload: `a.txt` again but with different byte content `[2]`. -/
def fileA2 : UploadedFile := { name := "a.txt", type := "text/plain", content := [2] }

/-- Concrete upload: `c.txt` with byte content `[3]`. -/
def fileC : UploadedFile := { name := "c.txt", type := "text/plain", content := [3] }

/-- Filename of the first test upload. -/
def nameA : String := "a.txt"

/-- Filename of the second test upload. -/
def nameB : String := "b.txt"

/-- Filename of the third test upload. -/
def nameC : String := "c.txt"

/-- A fixed history record used to evaluate the history cap. -/
def testEntry : QueryEntry := { question := "q", response := "r", timestamp := "t" }

/-! ### Helper lemmas about the registry dictionary -/

theorem dictContains_eq_false_iff (r : Registry) (k : String) :
    dictContains r k = false ↔ ∀ p ∈ r, p.1 ≠ k := by
  simp [dictContains, List.any_eq_true]

theorem dictContains_eq_true_iff (r : Registry) (k : String) :
    dictContains r k = true ↔ ∃ p ∈ r, p.1 = k := by
  simp [dictContains, List.any_eq_true]

theorem isDuplicate_eq_false_iff (r : Registry) (h : String) :
    isDuplicate r h = false ↔ ∀ p ∈ r, p.2.hash ≠ h := by
  simp [isDuplicate, List.any_eq_true]

theorem dictInsert_of_not_contains (r : Registry) (k : String) (v : DocInfo)
    (h : dictContains r k = false) : dictInsert r k v = r ++ [(k, v)] := by
  simp [dictInsert, h]

theorem mem_dictInsert (r : Registry) (k : String) (v : DocInfo) (p : String × DocInfo)
    (hp : p ∈ dictInsert r k v) : p ∈ r ∨ p = (k, v) := by
  unfold dictInsert at hp
  split at hp
  · rcases List.mem_map.1 hp with ⟨q, hq, rfl⟩
    by_cases hk : q.1 = k
    · right; simp [hk]
    · left; simpa [hk] using hq
  · rcases List.mem_append.1 hp with h1 | h1
    · left; exact h1
    · right; simpa using h1

theorem dictContains_dictRemove (r : Registry) (k : String) :
    dictContains (dictRemove r k) k = false := by
  rw [dictContains_eq_false_iff]
  intro p hp
  have := List.mem_filter.1 hp
  simpa using this.2

/-! ### Theorems for the claims -/

/-- C8: the query history never exceeds 50 entries, and appending to a
50-entry history evicts exactly the oldest entry, keeps the order of the
remaining entries, and puts the newest at the end. -/
theorem query_history_cap (h : List QueryEntry) (e : QueryEntry) :
    (appendQueryEntry h e).length ≤ 50 ∧
    (h.length = 50 → appendQueryEntry h e = h.tail ++ [e]) := by
  constructor
  · unfold appendQueryEntry capHistory
    split
    · rename_i hgt
      simp only [List.length_append, List.length_singleton] at hgt ⊢
      simp only [List.length_drop, List.length_append, List.length_singleton]
      omega
    · rename_i hle
      simp only [not_lt] at hle
      exact hle
  · intro h50
    have hlen : (h ++ [e]).length = 51 := by simp [h50]
    simp only [appendQueryEntry, capHistory, hlen]
    norm_num
    cases h with
    | nil => simp at h50
    | cons a t => simp

/-- Witness for C8 at a concrete 50-entry history. -/
theorem query_history_cap_witness :
    (List.replicate 50 testEntry).length = 50 ∧
    appendQueryEntry (List.replicate 50 testEntry) testEntry =
      (List.replicate 50 testEntry).tail ++ [testEntry] :=
  ⟨by simp, (query_history_cap (List.replicate 50 testEntry) testEntry).2 (by simp)⟩

/-- C9: with an empty registry, `render_question_section` warns and returns
before any query-engine call, whatever the prompt: the engine is not
invoked and the history is unchanged. -/
theorem empty_registry_short_circuits (P : Params) (history : List QueryEntry)
    (prompt : Option String) :
    render_question_section P [] history prompt =
      { history := history, engineCalled := false, noDocsWarning := true } := by
  simp [render_question_section]

/-- C5: removing a filename present in the registry leaves it absent from
the registry; the rebuilt index is exactly the old documents whose metadata
filename differs from the target, so no document tagged with the removed
filename survives and every other document is retained unchanged. -/
theorem remove_present_document (s : AppState) (f : String)
    (hf : dictContains s.registry f = true) :
    dictContains (remove_document s f).1.registry f = false ∧
    (remove_document s f).1.index = s.index.filter (fun d => d.filename ≠ f) ∧
    (∀ d ∈ (remove_document s f).1.index, d.filename ≠ f) ∧
    (∀ d ∈ s.index, d.filename ≠ f → d ∈ (remove_document s f).1.index) := by
  refine ⟨?_, rfl, ?_, ?_⟩
  · simp only [remove_document, hf, if_true]
    exact dictContains_dictRemove s.registry f
  · intro d hd
    have := List.mem_filter.1 hd
    simpa using this.2
  · intro d hd hne
    exact List.mem_filter.2 ⟨hd, by simpa using hne⟩

/-- State after uploading `fileA` into the empty app. -/
def stateA : AppState :=
  (render_document_management_upload testParams (AppState.mk [] []) [fileA]).1

theorem AppState.eq_of_parts {a b : AppState} (h1 : a.registry = b.registry)
    (h2 : a.index = b.index) : a = b := by
  cases a; cases b; cases h1; cases h2; rfl

theorem remove_document_registry_part (s : AppState) (f : String) :
    (remove_document s f).1.registry =
      if dictContains s.registry f then dictRemove s.registry f else s.registry := rfl

theorem remove_document_index_part (s : AppState) (f : String) :
    (remove_document s f).1.index = s.index.filter (fun d => d.filename ≠ f) := rfl

/-- `remove_document` is idempotent on the state: removing the same filename
twice in a row changes nothing the second time. -/
theorem remove_document_idem (s : AppState) (f : String) :
    (remove_document (remove_document s f).1 f).1 = (remove_document s f).1 := by
  have hreg : dictContains (remove_document s f).1.registry f = false := by
    rw [remove_document_registry_part]
    split
    · exact dictContains_dictRemove s.registry f
    · rename_i hc
      simp only [Bool.not_eq_true] at hc
      exact hc
  refine AppState.eq_of_parts ?_ ?_
  · rw [remove_document_registry_part, hreg]
    simp
  · rw [remove_document_index_part, remove_document_index_part s f]
    simp [List.filter_filter]

/-- C4 counterexample: removing a filename that is absent from the registry
does not report a not-found outcome — the source unconditionally emits its
success message. -/
theorem remove_absent_counterexample :
    dictContains (AppState.mk [] []).registry nameB = false ∧
    (remove_document (AppState.mk [] []) nameB).2 ≠ RemoveReport.notFound nameB ∧
    (remove_document (AppState.mk [] []) nameB).2 = RemoveReport.success nameB := by
  decide

/-- C4 (amended): removing a filename absent from the registry, in a state
whose index tags all have registry entries, changes neither the registry nor
the index, and a second removal of the same filename leaves the state after
the second call equal to the state after the first; however the call reports
success, not a not-found outcome. -/
theorem remove_absent_noop (s : AppState) (f : String)
    (habs : dictContains s.registry f = false)
    (htags : ∀ d ∈ s.index, dictContains s.registry d.filename = true) :
    (remove_document s f).1 = s ∧
    (remove_document s f).2 = RemoveReport.success f ∧
    (remove_document (remove_document s f).1 f).1 = (remove_document s f).1 := by
  refine ⟨?_, rfl, remove_document_idem s f⟩
  have hidx : s.index.filter (fun d => d.filename ≠ f) = s.index := by
    rw [List.filter_eq_self]
    intro d hd
    have hin := htags d hd
    have hne : d.filename ≠ f := by
      intro heq
      rw [heq] at hin
      rw [hin] at habs
      exact absurd habs (by simp)
    simpa using hne
  refine AppState.eq_of_parts ?_ ?_
  · rw [remove_document_registry_part, habs]
    simp
  · rw [remove_document_index_part, hidx]

/-- Witness for C4 at a concrete state holding only `a.txt`. -/
theorem remove_absent_noop_witness :
    (dictContains stateA.registry nameB = false ∧
      ∀ d ∈ stateA.index, dictContains stateA.registry d.filename = true) ∧
    ((remove_document stateA nameB).1 = stateA ∧
     (remove_document stateA nameB).2 = RemoveReport.success nameB ∧
     (remove_document (remove_document stateA nameB).1 nameB).1 =
       (remove_document stateA nameB).1) :=
  ⟨⟨by decide, by decide⟩, remove_absent_noop stateA nameB (by decide) (by decide)⟩

/-- C2: an upload whose content hash equals the hash of some registry record
is rejected as a duplicate whatever its filename: the filename is reported
in the duplicate list and the state (registry and index) is returned
unchanged. -/
theorem duplicate_upload_rejected (P : Params) (s : AppState) (f : UploadedFile)
    (hdup : isDuplicate s.registry (P.fhash f.content) = true) :
    render_document_management_upload P s [f] = (s, [f.name]) := by
  simp [render_document_management_upload, splitBatch, hdup, processFiles]

/-- Witness for C2: `b.txt` with the same bytes as the registered `a.txt`. -/
theorem duplicate_upload_rejected_witness :
    isDuplicate stateA.registry (testParams.fhash fileB.content) = true ∧
    render_document_management_upload testParams stateA [fileB] = (stateA, [fileB.name]) :=
  ⟨by decide, duplicate_upload_rejected testParams stateA fileB (by decide)⟩

/-- Witness for C5: removing the registered `a.txt` from the concrete
one-document state. -/
theorem remove_present_document_witness :
    dictContains stateA.registry nameA = true ∧
    (dictContains (remove_document stateA nameA).1.registry nameA = false ∧
     (remove_document stateA nameA).1.index =
       stateA.index.filter (fun d => d.filename ≠ nameA) ∧
     (∀ d ∈ (remove_document stateA nameA).1.index, d.filename ≠ nameA) ∧
     (∀ d ∈ stateA.index, d.filename ≠ nameA → d ∈ (remove_document stateA nameA).1.index)) :=
  ⟨by decide, remove_present_document stateA nameA (by decide)⟩

/-- C10: dedup looks only at the content hash. A plain-text upload whose
hash matches no registry record is accepted even when its filename is
already registered: nothing is reported as duplicate, the new document is
appended to the index while every previously indexed document (including
those tagged with the same filename) remains, and the registry entry for
that filename is overwritten in place with the new metadata. -/
theorem dedup_by_hash_only (P : Params) (s : AppState) (f : UploadedFile) (t : String)
    (hnew : isDuplicate s.registry (P.fhash f.content) = false)
    (htype : f.type = "text/plain")
    (hdec : P.decodeUtf8 f.content = some t)
    (hne : t ≠ "") :
    render_document_management_upload P s [f] =
      ({ registry := dictInsert s.registry f.name
           { type := f.type, size := f.content.length, date_added := P.now,
             hash := P.fhash f.content },
         index := s.index ++ [{ text := t, filename := f.name }] }, []) ∧
    (∀ d ∈ s.index, d ∈ (render_document_management_upload P s [f]).1.index) ∧
    (dictContains s.registry f.name = true →
      (render_document_management_upload P s [f]).1.registry =
        s.registry.map (fun p =>
          if p.1 = f.name then
            (f.name, { type := f.type, size := f.content.length, date_added := P.now,
                       hash := P.fhash f.content })
          else p)) := by
  have h1 : render_document_management_upload P s [f] =
      ({ registry := dictInsert s.registry f.name
           { type := f.type, size := f.content.length, date_added := P.now,
             hash := P.fhash f.content },
         index := s.index ++ [{ text := t, filename := f.name }] }, []) := by
    simp [render_document_management_upload, splitBatch, hnew, processFiles, processFile,
      extractedText, htype, hdec, hne]
  refine ⟨h1, ?_, ?_⟩
  · intro d hd
    rw [h1]
    exact List.mem_append.2 (Or.inl hd)
  · intro hc
    rw [h1]
    simp [dictInsert, hc]

/-- Witness for C10: re-uploading `a.txt` with new bytes while `a.txt` is
registered with the old hash. -/
theorem dedup_by_hash_only_witness :
    (isDuplicate stateA.registry (testParams.fhash fileA2.content) = false ∧
      fileA2.type = "text/plain" ∧
      testParams.decodeUtf8 fileA2.content = some ("2.") ∧
      ("2." : String) ≠ "" ∧
      dictContains stateA.registry fileA2.name = true) ∧
    (render_document_management_upload testParams stateA [fileA2] =
      ({ registry := dictInsert stateA.registry fileA2.name
           { type := fileA2.type, size := fileA2.content.length,
             date_added := testParams.now, hash := testParams.fhash fileA2.content },
         index := stateA.index ++ [{ text := "2.", filename := fileA2.name }] }, []) ∧
    (∀ d ∈ stateA.index, d ∈ (render_document_management_upload testParams stateA [fileA2]).1.index) ∧
    (dictContains stateA.registry fileA2.name = true →
      (render_document_management_upload testParams stateA [fileA2]).1.registry =
        stateA.registry.map (fun p =>
          if p.1 = fileA2.name then
            (fileA2.name, { type := fileA2.type, size := fileA2.content.length,
                            date_added := testParams.now,
                            hash := testParams.fhash fileA2.content })
          else p))) :=
  ⟨⟨by decide, rfl, by decide, by decide, by decide⟩,
    dedup_by_hash_only testParams stateA fileA2 ("2.") (by decide) rfl (by decide) (by decide)⟩

/-- C7: at startup with a fresh session, an absent registry file yields an
empty registry with no error, and a file whose data `json.load` cannot
parse is reported as an error and yields an empty registry instead of
failing. -/
theorem registry_load_tolerant (parse : String → Option Registry) (raw : String)
    (hbad : parse raw = none) :
    startup_registry parse none none = ([], false) ∧
    ∀ sess, startup_registry parse sess (some raw) = ([], true) := by
  refine ⟨rfl, fun sess => ?_⟩
  simp [startup_registry, load_document_registry, hbad]

/-- A reader on which `json.load` always raises. -/
def badParse : String → Option Registry := fun _ => none

/-- Witness for C7 at a concrete unparsable file. -/
theorem registry_load_tolerant_witness :
    badParse ("not json") = none ∧
    startup_registry badParse none none = ([], false) ∧
    startup_registry badParse none (some ("not json")) = ([], true) :=
  ⟨rfl, (registry_load_tolerant badParse ("not json") rfl).1,
    (registry_load_tolerant badParse ("not json") rfl).2 none⟩

/-- Old durable registry file text for the crash-atomicity counterexample. -/
def oldFileText : String := "OLD-REGISTRY-JSON"

/-- New registry file text for the crash-atomicity counterexample. -/
def newFileText : String := "NEW-REGISTRY-JSON"

/-- C6 counterexample: a crash during `_save_document_registry` can leave
the durable file holding something that is neither the complete old content
nor the complete new content (the write truncates in place). -/
theorem save_not_crash_atomic_counterexample :
    ¬ ∀ c ∈ save_document_registry_crash_contents oldFileText newFileText,
        c = oldFileText ∨ c = newFileText := by
  decide

/-- C6 (amended): saving the registry is not crash-atomic. A crash during
`_save_document_registry` leaves either the old content (crash before the
truncating open) or some written portion of the new text — in particular
the empty truncated file is always reachable — and the complete new content
is reached only when the write finishes. -/
theorem save_crash_window (oldContent newContent : String) :
    (∀ c ∈ save_document_registry_crash_contents oldContent newContent,
        c = oldContent ∨ ∃ k, k ≤ newContent.length ∧ c = newContent.take k) ∧
    "" ∈ save_document_registry_crash_contents oldContent newContent ∧
    newContent ∈ save_document_registry_crash_contents oldContent newContent := by
  refine ⟨?_, ?_, ?_⟩
  · intro c hc
    unfold save_document_registry_crash_contents at hc
    rcases List.mem_cons.1 hc with rfl | hc
    · exact Or.inl rfl
    · right
      rcases List.mem_map.1 hc with ⟨k, hk, rfl⟩
      exact ⟨k, Nat.lt_succ_iff.1 (List.mem_range.1 hk), rfl⟩
  · unfold save_document_registry_crash_contents
    refine List.mem_cons.2 (Or.inr (List.mem_map.2 ⟨0, List.mem_range.2 (Nat.succ_pos _), ?_⟩))
    have h := String.take_eq newContent 0
    simp only [List.take_zero] at h
    exact h.trans rfl
  · unfold save_document_registry_crash_contents
    refine List.mem_cons.2
      (Or.inr (List.mem_map.2 ⟨newContent.length, List.mem_range.2 (Nat.lt_succ_self _), ?_⟩))
    obtain ⟨l⟩ := newContent
    rw [String.take_eq]
    show String.mk (l.take (String.mk l).length) = String.mk l
    have hlen : (String.mk l).length = l.length := rfl
    rw [hlen, List.take_length]

/-- C3: evaluation of the upload handler on a batch that contains the same
bytes twice. The duplicate check of the first loop consults only the
registry as of the start of the batch, so nothing is reported as duplicate
and both copies are accepted and indexed; and when the two copies also
share a filename, the later one silently overwrites the earlier accepted
registry entry while the index keeps both documents. -/
theorem in_batch_duplicate_accepted :
    testParams.fhash fileA.content = testParams.fhash fileB.content ∧
    (render_document_management_upload testParams (AppState.mk [] []) [fileA, fileB]).2 = [] ∧
    (render_document_management_upload testParams (AppState.mk [] []) [fileA, fileB]).1.index.length = 2 ∧
    (render_document_management_upload testParams (AppState.mk [] []) [fileA, fileB]).1.registry.length = 2 ∧
    (render_document_management_upload testParams (AppState.mk [] []) [fileA, fileA]).2 = [] ∧
    (render_document_management_upload testParams (AppState.mk [] []) [fileA, fileA]).1.registry.length = 1 ∧
    (render_document_management_upload testParams (AppState.mk [] []) [fileA, fileA]).1.index.length = 2 := by
  decide

/-! ### The structural correspondence invariant (C1) -/

/-- Strong invariant carried through the operation sequence: the list of
filename tags in the index is exactly the list of registry keys. -/
def tagsMatchKeys (s : AppState) : Prop :=
  s.index.map Doc.filename = s.registry.map Prod.fst

theorem tagsMatchKeys_correspondence (s : AppState) (h : tagsMatchKeys s) :
    correspondence s := by
  unfold tagsMatchKeys at h
  refine ⟨?_, ?_, ?_⟩
  · have hlen := congrArg List.length h
    simpa using hlen.symm
  · intro p hp
    have hmem : p.1 ∈ s.registry.map Prod.fst := List.mem_map.2 ⟨p, hp, rfl⟩
    rw [← h] at hmem
    rcases List.mem_map.1 hmem with ⟨d, hd, hdf⟩
    exact ⟨d, hd, hdf⟩
  · intro d hd
    have hmem : d.filename ∈ s.index.map Doc.filename := List.mem_map.2 ⟨d, hd, rfl⟩
    rw [h] at hmem
    rcases List.mem_map.1 hmem with ⟨p, hp, hpf⟩
    exact (dictContains_eq_true_iff _ _).2 ⟨p, hp, hpf⟩

theorem processFile_registry_cases (P : Params) (s : AppState) (f : UploadedFile)
    (h : String) (p : String × DocInfo) (hp : p ∈ (processFile P s f h).registry) :
    p ∈ s.registry ∨ (p.1 = f.name ∧ p.2.hash = h) := by
  unfold processFile at hp
  split at hp
  · exact Or.inl hp
  · split at hp
    · exact Or.inl hp
    · rcases mem_dictInsert _ _ _ _ hp with h1 | h1
      · exact Or.inl h1
      · right
        rw [h1]
        exact ⟨rfl, rfl⟩

theorem processFile_tagsMatchKeys (P : Params) (s : AppState) (f : UploadedFile)
    (h : String) (hfresh : dictContains s.registry f.name = false)
    (hs : tagsMatchKeys s) : tagsMatchKeys (processFile P s f h) := by
  unfold processFile
  split
  · exact hs
  · split
    · exact hs
    · unfold tagsMatchKeys at hs ⊢
      simp only
      rw [dictInsert_of_not_contains _ _ _ hfresh]
      simp only [List.map_append, List.map_cons, List.map_nil]
      rw [hs]

theorem processFiles_registry_cases (P : Params) :
    ∀ (l : List (UploadedFile × String)) (s : AppState) (p : String × DocInfo),
      p ∈ (processFiles P s l).registry →
      p ∈ s.registry ∨ ∃ fh ∈ l, p.1 = fh.1.name ∧ p.2.hash = fh.2 := by
  intro l
  induction l with
  | nil =>
    intro s p hp
    exact Or.inl hp
  | cons fh rest ih =>
    intro s p hp
    simp only [processFiles] at hp
    rcases ih (processFile P s fh.1 fh.2) p hp with h1 | h1
    · rcases processFile_registry_cases P s fh.1 fh.2 p h1 with h2 | h2
      · exact Or.inl h2
      · exact Or.inr ⟨fh, List.mem_cons_self _ _, h2⟩
    · rcases h1 with ⟨gh, hg, h2⟩
      exact Or.inr ⟨gh, List.mem_cons_of_mem _ hg, h2⟩

theorem processFiles_tagsMatchKeys (P : Params) :
    ∀ (l : List (UploadedFile × String)) (s : AppState),
      tagsMatchKeys s →
      (∀ fh ∈ l, dictContains s.registry fh.1.name = false) →
      l.Pairwise (fun a b => a.1.name ≠ b.1.name) →
      tagsMatchKeys (processFiles P s l) := by
  intro l
  induction l with
  | nil =>
    intro s hs _ _
    exact hs
  | cons fh rest ih =>
    intro s hs hfresh hpair
    simp only [processFiles]
    apply ih
    · exact processFile_tagsMatchKeys P s fh.1 fh.2
        (hfresh fh (List.mem_cons_self _ _)) hs
    · intro gh hg
      rw [dictContains_eq_false_iff]
      intro p hp
      rcases processFile_registry_cases P s fh.1 fh.2 p hp with h1 | h1
      · exact (dictContains_eq_false_iff _ _).1
          (hfresh gh (List.mem_cons_of_mem _ hg)) p h1
      · rw [h1.1]
        exact (List.pairwise_cons.1 hpair).1 gh hg
    · exact (List.pairwise_cons.1 hpair).2

theorem splitBatch_no_duplicates (P : Params) (reg : Registry) :
    ∀ (files : List UploadedFile),
      (∀ f ∈ files, isDuplicate reg (P.fhash f.content) = false) →
      splitBatch P reg files = ([], files.map (fun f => (f, P.fhash f.content))) := by
  intro files
  induction files with
  | nil =>
    intro _
    rfl
  | cons f rest ih =>
    intro hall
    simp only [splitBatch]
    rw [ih (fun g hg => hall g (List.mem_cons_of_mem _ hg))]
    simp [hall f (List.mem_cons_self _ _)]

theorem upload_tagsMatchKeys (P : Params) (s : AppState) (files : List UploadedFile)
    (hs : tagsMatchKeys s)
    (hhash : ∀ f ∈ files, ∀ p ∈ s.registry, p.2.hash ≠ P.fhash f.content)
    (hname : ∀ f ∈ files, ∀ p ∈ s.registry, p.1 ≠ f.name)
    (hpairn : files.Pairwise (fun a b => a.name ≠ b.name)) :
    tagsMatchKeys (render_document_management_upload P s files).1 := by
  unfold render_document_management_upload
  rw [splitBatch_no_duplicates P s.registry files
    (fun f hf => (isDuplicate_eq_false_iff _ _).2 (fun p hp => hhash f hf p hp))]
  simp only
  apply processFiles_tagsMatchKeys
  · exact hs
  · intro fh hfh
    rcases List.mem_map.1 hfh with ⟨f, hf, rfl⟩
    exact (dictContains_eq_false_iff _ _).2 (fun p hp => hname f hf p hp)
  · exact List.Pairwise.map _ (fun a b hab => hab) hpairn

theorem upload_registry_cases (P : Params) (s : AppState) (files : List UploadedFile)
    (hnodup : ∀ f ∈ files, ∀ p ∈ s.registry, p.2.hash ≠ P.fhash f.content)
    (p : String × DocInfo)
    (hp : p ∈ (render_document_management_upload P s files).1.registry) :
    p ∈ s.registry ∨ ∃ f ∈ files, p.1 = f.name ∧ p.2.hash = P.fhash f.content := by
  unfold render_document_management_upload at hp
  rw [splitBatch_no_duplicates P s.registry files
    (fun f hf => (isDuplicate_eq_false_iff _ _).2 (fun q hq => hnodup f hf q hq))] at hp
  simp only at hp
  rcases processFiles_registry_cases P _ s p hp with h1 | h1
  · exact Or.inl h1
  · rcases h1 with ⟨fh, hfh, h2⟩
    rcases List.mem_map.1 hfh with ⟨f, hf, rfl⟩
    exact Or.inr ⟨f, hf, h2⟩

theorem filter_key_map_comm {α β : Type} [DecidableEq β] (g : α → β) (b : β) :
    ∀ (l : List α),
      (l.filter (fun a => g a ≠ b)).map g = (l.map g).filter (fun x => x ≠ b) := by
  intro l
  induction l with
  | nil => rfl
  | cons a t ih =>
    simp only [ne_eq, decide_not] at ih
    by_cases h : g a = b
    · simp [h, ih]
    · simp [h, ih]

theorem remove_registry_sub (s : AppState) (f : String) (p : String × DocInfo)
    (hp : p ∈ (remove_document s f).1.registry) : p ∈ s.registry := by
  rw [remove_document_registry_part] at hp
  split at hp
  · exact (List.mem_filter.1 hp).1
  · exact hp

theorem remove_tagsMatchKeys (s : AppState) (f : String) (hs : tagsMatchKeys s) :
    tagsMatchKeys (remove_document s f).1 := by
  unfold tagsMatchKeys at hs ⊢
  rw [remove_document_registry_part, remove_document_index_part]
  by_cases hc : dictContains s.registry f = true
  · rw [if_pos hc]
    unfold dictRemove
    rw [filter_key_map_comm Doc.filename f s.index,
      filter_key_map_comm Prod.fst f s.registry, hs]
  · have hcf : dictContains s.registry f = false := by
      simpa using hc
    have hni : ∀ d ∈ s.index, d.filename ≠ f := by
      intro d hd heq
      have hmem : d.filename ∈ s.index.map Doc.filename := List.mem_map.2 ⟨d, hd, rfl⟩
      rw [hs] at hmem
      rcases List.mem_map.1 hmem with ⟨p, hp, hpf⟩
      exact (dictContains_eq_false_iff _ _).1 hcf p hp (hpf.trans heq)
    have hid : s.index.filter (fun d => d.filename ≠ f) = s.index :=
      List.filter_eq_self.2 (fun d hd => by simpa using hni d hd)
    rw [if_neg hc, hid, hs]

theorem runOps_tagsMatchKeys (P : Params) :
    ∀ (ops : List Op) (s : AppState),
      tagsMatchKeys s →
      (∀ p ∈ s.registry, ∀ f ∈ opsFiles ops, p.1 ≠ f.name) →
      (∀ p ∈ s.registry, ∀ f ∈ opsFiles ops, p.2.hash ≠ P.fhash f.content) →
      (opsFiles ops).Pairwise (fun f g => f.name ≠ g.name) →
      (opsFiles ops).Pairwise (fun f g => P.fhash f.content ≠ P.fhash g.content) →
      tagsMatchKeys (runOps P s ops) := by
  intro ops
  induction ops with
  | nil =>
    intro s hs _ _ _ _
    exact hs
  | cons op rest ih =>
    intro s hs hname hhash hpn hph
    have hofs : opsFiles (op :: rest) = opFiles op ++ opsFiles rest := by
      simp [opsFiles]
    rw [hofs] at hname hhash hpn hph
    have hpn' := List.pairwise_append.1 hpn
    have hph' := List.pairwise_append.1 hph
    simp only [runOps]
    apply ih (applyOp P s op)
    · cases op with
      | upload files =>
        exact upload_tagsMatchKeys P s files hs
          (fun f hf p hp => hhash p hp f (List.mem_append_left _ hf))
          (fun f hf p hp => hname p hp f (List.mem_append_left _ hf))
          hpn'.1
      | remove f => exact remove_tagsMatchKeys s f hs
      | removeAll => rfl
    · intro p hp g hg
      cases op with
      | upload files =>
        rcases upload_registry_cases P s files
          (fun f hf q hq => hhash q hq f (List.mem_append_left _ hf)) p hp with h1 | h1
        · exact hname p h1 g (List.mem_append_right _ hg)
        · rcases h1 with ⟨f, hf, hpf, _⟩
          rw [hpf]
          exact hpn'.2.2 f (by simpa [opFiles] using hf) g hg
      | remove f =>
        exact hname p (remove_registry_sub s f p hp) g (List.mem_append_right _ hg)
      | removeAll => cases hp
    · intro p hp g hg
      cases op with
      | upload files =>
        rcases upload_registry_cases P s files
          (fun f hf q hq => hhash q hq f (List.mem_append_left _ hf)) p hp with h1 | h1
        · exact hhash p h1 g (List.mem_append_right _ hg)
        · rcases h1 with ⟨f, hf, _, hph2⟩
          rw [hph2]
          exact hph'.2.2 f (by simpa [opFiles] using hf) g hg
      | remove f =>
        exact hhash p (remove_registry_sub s f p hp) g (List.mem_append_right _ hg)
      | removeAll => cases hp
    · exact hpn'.2.1
    · exact hph'.2.1

/-- C1 (amended): starting from an empty registry and empty index, for any
sequence of uploads, removals and remove-alls whose uploaded files have
pairwise-distinct content digests and pairwise-distinct filenames, the
structural correspondence holds after every completed operation: registry
size equals index document count, every registry filename tags at least one
indexed document, and every index tag has a registry entry. -/
theorem structural_correspondence (P : Params) (ops : List Op)
    (hnames : (opsFiles ops).Pairwise (fun f g => f.name ≠ g.name))
    (hhashes : (opsFiles ops).Pairwise (fun f g => P.fhash f.content ≠ P.fhash g.content)) :
    ∀ pre suf, ops = pre ++ suf → correspondence (runOps P (AppState.mk [] []) pre) := by
  intro pre suf heq
  subst heq
  have hofs : opsFiles (pre ++ suf) = opsFiles pre ++ opsFiles suf := by
    simp [opsFiles]
  rw [hofs] at hnames hhashes
  apply tagsMatchKeys_correspondence
  apply runOps_tagsMatchKeys
  · rfl
  · intro p hp
    cases hp
  · intro p hp
    cases hp
  · exact (List.pairwise_append.1 hnames).1
  · exact (List.pairwise_append.1 hhashes).1

/-- C1 counterexample: two inserts with pairwise-distinct content (and
distinct digests) but the same filename `a.txt` leave one registry entry
against two indexed documents, so the correspondence fails as stated. -/
theorem structural_correspondence_counterexample :
    fileA.content ≠ fileA2.content ∧
    testParams.fhash fileA.content ≠ testParams.fhash fileA2.content ∧
    ¬ correspondence (runOps testParams (AppState.mk [] [])
        [Op.upload [fileA], Op.upload [fileA2]]) := by
  decide

/-- Witness for C1 on a concrete sequence: upload `a.txt`, remove it, then
upload `c.txt`; the correspondence holds after the first two operations. -/
theorem structural_correspondence_witness :
    ((opsFiles [Op.upload [fileA], Op.remove nameA, Op.upload [fileC]]).Pairwise
        (fun f g => f.name ≠ g.name) ∧
      (opsFiles [Op.upload [fileA], Op.remove nameA, Op.upload [fileC]]).Pairwise
        (fun f g => testParams.fhash f.content ≠ testParams.fhash g.content)) ∧
    correspondence (runOps testParams (AppState.mk [] [])
      [Op.upload [fileA], Op.remove nameA]) :=
  ⟨⟨by decide, by decide⟩,
    structural_correspondence testParams
      [Op.upload [fileA], Op.remove nameA, Op.upload [fileC]]
      (by decide) (by decide)
      [Op.upload [fileA], Op.remove nameA] [Op.upload [fileC]] rfl⟩

end DocApp

